import Mathlib

/-!
Verification of the hanetprobe core: a shallow embedding of the probe
engine (src/common.py), the publish layer (src/publish.py) and the probe
drivers (src/dns_probe.py, src/ping_probe.py), with theorems settling the
spec claims. Machine floats are modelled as exact rationals; real-time
pacing and network I/O are outside the embedded state.
-/

/-- Embedding of `ProbeResult` (common.py line 18): named tuple
`(rtt, bytes_sent, bytes_received)`; `rtt = None` denotes a lost sample. -/
structure ProbeResult where
  rtt : Option ℚ
  bytes_sent : ℕ
  bytes_received : ℕ
  deriving DecidableEq, Repr

/-- Embedding of `ProbeState` (common.py lines 26-34). -/
structure ProbeState where
  total_count : ℕ := 0
  total_lost_count : ℕ := 0
  bytes_sent : ℕ := 0
  bytes_received : ℕ := 0
  current : Option ProbeResult := none
  deriving DecidableEq, Repr

/-- The configuration fields of a probe that the core reads
(`probe_config.name`, `.history_len`, `.interval`, `.publish_precision`). -/
structure ProbeConfig where
  name : String
  history_len : ℕ
  interval : ℚ
  publish_precision : ℕ
  deriving DecidableEq, Repr

/-- Embedding of `ProbeBase` (common.py lines 37-45): the probe type tag
(abstract property realised by each driver subclass), the configuration,
the physical history buffer `_hist` and the mutable state. -/
structure ProbeBase where
  probe_type : String
  probe_config : ProbeConfig
  hist : List (Option ℚ) := []
  state : ProbeState := {}
  deriving DecidableEq, Repr

namespace ProbeBase

/-- Embedding of the `name` property (common.py lines 52-55). -/
def name (p : ProbeBase) : String :=
  p.probe_config.name

/-- Embedding of the `history` property (common.py lines 57-63): the
history in sequential order (old to new), obtained by rotating the
physical buffer at `total_count % history_len` once the buffer is full. -/
def history (p : ProbeBase) : List (Option ℚ) :=
  if p.hist.length < p.probe_config.history_len then
    p.hist
  else
    let pos := p.state.total_count % p.probe_config.history_len
    p.hist.drop pos ++ p.hist.take pos

/-- Embedding of the `history_fill_factor` property (common.py lines
65-68): `100 * len(_hist) / history_len`. -/
def history_fill_factor (p : ProbeBase) : ℚ :=
  100 * (p.hist.length : ℚ) / (p.probe_config.history_len : ℚ)

/-- Embedding of `get_average` (common.py lines 70-75): mean of the
non-null entries of the physical buffer, `None` when there are none. -/
def get_average (p : ProbeBase) : Option ℚ :=
  let values := p.hist.filterMap id
  if values.isEmpty then none
  else some (values.sum / (values.length : ℚ))

/-- Embedding of `get_loss_percent` (common.py lines 77-82). -/
def get_loss_percent (p : ProbeBase) : Option ℚ :=
  if p.hist.length = 0 then none
  else some (100 * (p.hist.count none : ℚ) / (p.hist.length : ℚ))

/-- Embedding of `get_jitter` (common.py lines 84-92): filter the nulls
out of the chronological history, then take the mean of the absolute
differences of consecutive pairs, pairing `history[:-1]` with
`history[1:]` exactly as the `zip` in the source does. -/
def get_jitter (p : ProbeBase) : Option ℚ :=
  let h := p.history.filterMap id
  if h.length ≤ 1 then none
  else
    let diffs := List.zipWith (fun i j => |j - i|) h.dropLast (h.drop 1)
    some (diffs.sum / (diffs.length : ℚ))

/-- Embedding of `_add_hist` (common.py lines 136-141): append while the
buffer is below capacity, otherwise overwrite the slot at
`total_count % history_len`; in both cases increment `total_count`. -/
def add_hist (p : ProbeBase) (value : Option ℚ) : ProbeBase :=
  let hist :=
    if p.hist.length < p.probe_config.history_len then
      p.hist ++ [value]
    else
      p.hist.set (p.state.total_count % p.probe_config.history_len) value
  { p with
    hist := hist
    state := { p.state with total_count := p.state.total_count + 1 } }

end ProbeBase

/-- Outcome of one `_probe_action()` call as seen by `probe()`
(common.py lines 107-120): a returned `ProbeResult`, a `CancelledError`,
or any other exception. -/
inductive ProbeActionOutcome where
  | ok (result : ProbeResult)
  | cancelled
  | error
  deriving DecidableEq, Repr

namespace ProbeBase

/-- The recording tail of `probe()` (common.py lines 122-130): store the
current result, accumulate the byte counters, bump `total_lost_count` on
a null rtt, then write the rtt (or null) into the history. -/
def probeRecord (p : ProbeBase) (cur : ProbeResult) : ProbeBase :=
  let st1 := { p.state with
    current := some cur
    bytes_sent := p.state.bytes_sent + cur.bytes_sent
    bytes_received := p.state.bytes_received + cur.bytes_received }
  let st2 :=
    match cur.rtt with
    | none => { st1 with total_lost_count := st1.total_lost_count + 1 }
    | some _ => st1
  add_hist { p with state := st2 } cur.rtt

/-- Embedding of `probe()` (common.py lines 94-130) past the real-time
pacing: a `CancelledError` from the action is re-raised (the error value
carries the probe exactly as it was when the exception escaped); any
other exception is replaced by the lost result `(None, 0, 0)`; then the
recording tail runs. -/
def probe (p : ProbeBase) : ProbeActionOutcome → Except ProbeBase ProbeBase
  | .cancelled => Except.error p
  | .error => Except.ok (p.probeRecord ⟨none, 0, 0⟩)
  | .ok r => Except.ok (p.probeRecord r)

end ProbeBase

/-- A fresh probe as built by `ProbeBase.__init__` (common.py lines
40-45): empty history, zeroed state. -/
def initProbe (probe_type : String) (cfg : ProbeConfig) : ProbeBase :=
  { probe_type := probe_type, probe_config := cfg }

/-- Folding a sequence of recorded rtt values through `_add_hist`, the
only writer of the history buffer and of `total_count`. -/
def recordAll (p : ProbeBase) (vs : List (Option ℚ)) : ProbeBase :=
  vs.foldl ProbeBase.add_hist p

/-- Embedding of the `SensorCode` enum (publish.py lines 135-145): one
logical sensor channel per semantic quantity. -/
inductive SensorCode where
  | rtt
  | rtt_average
  | average_loss
  | jitter
  | jitter_grade
  | connectivity
  | bytes_sent
  | bytes_received
  deriving DecidableEq, Repr

/-- A payload handed to `HassEntity.send_state`: a number or a literal
string such as `ON`, `OFF` or `unavailable`. -/
inductive HassValue where
  | num (q : ℚ)
  | str (s : String)
  deriving DecidableEq, Repr

/-- Round to the nearest integer, ties to even, the semantics of the
builtin `round` applied to an exact value. -/
def roundHalfToEven (q : ℚ) : ℤ :=
  if Int.fract q < 1 / 2 then ⌊q⌋
  else if Int.fract q = 1 / 2 then (if ⌊q⌋ % 2 = 0 then ⌊q⌋ else ⌊q⌋ + 1)
  else ⌈q⌉

/-- Embedding of the local `to_hass_numeric` (publish.py lines 272-275):
`None` becomes the `unavailable` marker, a number is rounded to the
configured precision (`round(value, precision)` when `precision > 0`,
else `round(value)`). -/
def to_hass_numeric (precision : ℕ) (value : Option ℚ) : HassValue :=
  match value with
  | none => HassValue.str "unavailable"
  | some v =>
      HassValue.num
        (if 0 < precision then
          (roundHalfToEven (v * 10 ^ precision) : ℚ) / 10 ^ precision
        else (roundHalfToEven v : ℚ))

/-- Embedding of `ProbePublisher.send_state` (publish.py lines 268-345)
as the list of `(channel, payload)` publish calls issued in one cycle, in
the order the tasks are appended to `pub_tasks`. -/
def send_state (p : ProbeBase) : List (SensorCode × HassValue) :=
  let precision := p.probe_config.publish_precision
  let first :=
    match p.state.current with
    | some cur =>
        match cur.rtt with
        | some r =>
            [(SensorCode.rtt, to_hass_numeric precision (some r)),
             (SensorCode.connectivity, HassValue.str "ON")]
        | none => [(SensorCode.connectivity, HassValue.str "OFF")]
    | none => [(SensorCode.connectivity, HassValue.str "OFF")]
  let stats :=
    if 40 ≤ p.history_fill_factor then
      let average := p.get_average
      let jitter := p.get_jitter
      [(SensorCode.rtt_average, to_hass_numeric precision average),
       (SensorCode.average_loss, to_hass_numeric precision p.get_loss_percent),
       (SensorCode.jitter, to_hass_numeric precision jitter),
       (SensorCode.jitter_grade,
         match jitter, average with
         | some j, some a => to_hass_numeric precision (some (100 * j / a))
         | _, _ => HassValue.str "unavailable")]
    else []
  first ++ stats ++
    [(SensorCode.bytes_sent, HassValue.num (p.state.bytes_sent : ℚ)),
     (SensorCode.bytes_received, HassValue.num (p.state.bytes_received : ℚ))]

/-- Embedding of `CompositeAllConnectedPublisher` (publish.py lines
348-374) keeping the part the core state machine reads: the resolved
member probes. -/
structure CompositeAllConnectedPublisher where
  probes : List ProbeBase
  deriving DecidableEq, Repr

/-- Embedding of `CompositeAllConnectedPublisher.send_state` (publish.py
lines 380-385): `OFF` when every member probe has `state.current is
None`, else `ON`. -/
def CompositeAllConnectedPublisher.send_state
    (cp : CompositeAllConnectedPublisher) : String :=
  let states := cp.probes.map (fun p => p.state.current)
  let all_is_down := states.all (fun state => state.isNone)
  if all_is_down then "OFF" else "ON"

/-- One entry of `publisher_config.probes`: the `(type, name)` pair a
compound group member is configured with. -/
structure ProbeTarget where
  type : String
  name : String
  deriving DecidableEq, Repr

/-- The member lookup inside `create_composite_publisher` (publish.py
lines 397-404): the first constructed probe whose type and name match
the configured target, if any. -/
def findProbe (all_probes : List ProbeBase) (t : ProbeTarget) :
    Option ProbeBase :=
  all_probes.find? (fun p => p.probe_type == t.type && p.name == t.name)

/-- Embedding of `create_composite_publisher` (publish.py lines 388-416):
walk the configured members in order, appending each resolved probe and
only logging a warning for an unresolved one; build the publisher when at
least one member resolved, otherwise raise. -/
def create_composite_publisher (targets : List ProbeTarget)
    (all_probes : List ProbeBase) :
    Except String CompositeAllConnectedPublisher :=
  let probes := targets.foldl
    (fun acc t =>
      match findProbe all_probes t with
      | some probe => acc ++ [probe]
      | none => acc)
    []
  if probes.isEmpty then Except.error "Probes % not found"
  else Except.ok ⟨probes⟩

/-- Embedding of `DnsProbe._probe_action` (dns_probe.py lines 34-70) past
the wire I/O: a reply of `elapsed_ms` and `bytes_received` yields a full
result; a `dns.exception.Timeout` yields `(None, bytes_to_send, 0)`. -/
def dns_probe_action (bytes_to_send : ℕ) (reply : Option (ℚ × ℕ)) :
    ProbeResult :=
  match reply with
  | some (elapsed_ms, bytes_received) =>
      ⟨some elapsed_ms, bytes_to_send, bytes_received⟩
  | none => ⟨none, bytes_to_send, 0⟩

/-- The fields of an `icmplib` ping result that
`PingProbe._probe_action` reads. -/
structure PingResult where
  packet_loss : Bool
  rtts : List ℚ
  deriving DecidableEq, Repr

/-- Embedding of `PingProbe._probe_action` (ping_probe.py lines 27-66):
`packet_size = payload_size + 8`; packet loss or an empty rtt list
yields `(None, packet_size, 0)`, else the first rtt with `packet_size`
bytes both ways. -/
def ping_probe_action (payload_size : ℕ) (r : PingResult) : ProbeResult :=
  let packet_size := payload_size + 8
  if r.packet_loss then ⟨none, packet_size, 0⟩
  else
    match r.rtts with
    | [] => ⟨none, packet_size, 0⟩
    | elapsed_ms :: _ => ⟨some elapsed_ms, packet_size, packet_size⟩

lemma composite_all_down_iff (cp : CompositeAllConnectedPublisher) :
    ((cp.probes.map (fun p => p.state.current)).all (fun s => s.isNone) = true)
      ↔ ∀ p ∈ cp.probes, p.state.current = none := by
  simp [List.all_eq_true, Option.isNone_iff_eq_none]

/-- Claim C6: the compound aggregator publishes `ON` (connected) exactly
when at least one member probe has a non-null current Measurement, and
`OFF` (disconnected) exactly when every member has a null current
Measurement (a lost sample still leaves a non-null Measurement with a
null rtt, so it counts as connected). -/
theorem C6_composite_connected_iff (cp : CompositeAllConnectedPublisher) :
    (cp.send_state = "ON" ↔ ∃ p ∈ cp.probes, p.state.current ≠ none) ∧
    (cp.send_state = "OFF" ↔ ∀ p ∈ cp.probes, p.state.current = none) := by
  by_cases h :
      (cp.probes.map (fun p => p.state.current)).all (fun s => s.isNone) = true
  · have hall := (composite_all_down_iff cp).mp h
    have hs : cp.send_state = "OFF" := by
      simp [CompositeAllConnectedPublisher.send_state, h]
    rw [hs]
    constructor
    · constructor
      · intro hcontra; exact absurd hcontra (by decide)
      · rintro ⟨p, hp, hne⟩; exact absurd (hall p hp) hne
    · exact ⟨fun _ => hall, fun _ => rfl⟩
  · have hnot : ¬ ∀ p ∈ cp.probes, p.state.current = none :=
      fun hall => h ((composite_all_down_iff cp).mpr hall)
    push_neg at hnot
    have hs : cp.send_state = "ON" := by
      simp [CompositeAllConnectedPublisher.send_state, h]
    rw [hs]
    constructor
    · constructor
      · intro _
        obtain ⟨p, hp, hne⟩ := hnot
        exact ⟨p, hp, hne⟩
      · intro _; rfl
    · constructor
      · intro hcontra; exact absurd hcontra (by decide)
      · intro hall
        obtain ⟨p, hp, hne⟩ := hnot
        exact absurd (hall p hp) hne

/-- Claim C7: a cancellation raised while the probe action is in flight
is re-raised immediately and the probe escapes with its entire state
unchanged (counters, byte totals, history and current result as before
the cycle); moreover cancellation is the only outcome on which the cycle
propagates an exception. -/
theorem C7_cancel_propagates_state_unchanged (p : ProbeBase) :
    p.probe ProbeActionOutcome.cancelled = Except.error p ∧
    ∀ oc q, p.probe oc = Except.error q →
      q = p ∧ oc = ProbeActionOutcome.cancelled := by
  refine ⟨rfl, ?_⟩
  intro oc q h
  cases oc with
  | cancelled =>
      refine ⟨?_, rfl⟩
      simpa [ProbeBase.probe] using h.symm
  | error => simp [ProbeBase.probe] at h
  | ok r => simp [ProbeBase.probe] at h

/-- Witness for C7 at a concrete probe. -/
theorem C7_cancel_witness :
    (initProbe "dns" ⟨"a", 3, 1, 0⟩).probe ProbeActionOutcome.cancelled =
      Except.error (initProbe "dns" ⟨"a", 3, 1, 0⟩) ∧
    initProbe "dns" ⟨"a", 3, 1, 0⟩ = initProbe "dns" ⟨"a", 3, 1, 0⟩ :=
  ⟨(C7_cancel_propagates_state_unchanged _).1,
   ((C7_cancel_propagates_state_unchanged (initProbe "dns" ⟨"a", 3, 1, 0⟩)).2
      _ _ (C7_cancel_propagates_state_unchanged _).1).1⟩

lemma foldl_resolve (all_probes : List ProbeBase) (ts : List ProbeTarget)
    (acc : List ProbeBase) :
    ts.foldl
      (fun acc t =>
        match findProbe all_probes t with
        | some probe => acc ++ [probe]
        | none => acc)
      acc
      = acc ++ ts.filterMap (findProbe all_probes) := by
  induction ts generalizing acc with
  | nil => simp
  | cons t ts ih =>
      simp only [List.foldl_cons, List.filterMap_cons]
      cases h : findProbe all_probes t with
      | none => simp [h, ih]
      | some probe => simp [h, ih]

/-- Claim C10: `create_composite_publisher` resolves the configured
members in configuration order, silently dropping every `(type, name)`
pair that matches no constructed probe; it returns a publisher holding
exactly the resolved members when at least one resolves, and raises only
when none do. -/
theorem C10_create_composite_resolution (targets : List ProbeTarget)
    (all_probes : List ProbeBase) :
    (targets.filterMap (findProbe all_probes) ≠ [] →
      create_composite_publisher targets all_probes =
        Except.ok ⟨targets.filterMap (findProbe all_probes)⟩) ∧
    (targets.filterMap (findProbe all_probes) = [] →
      create_composite_publisher targets all_probes =
        Except.error "Probes % not found") := by
  unfold create_composite_publisher
  rw [foldl_resolve]
  simp only [List.nil_append]
  constructor
  · intro h
    rw [if_neg (by simpa [List.isEmpty_iff] using h)]
  · intro h
    rw [if_pos (by simpa [List.isEmpty_iff] using h)]

/-- Witness for C10 at a concrete configuration: one member resolves,
one does not; the publisher holds exactly the resolved member. -/
theorem C10_create_composite_witness :
    create_composite_publisher
        [⟨"dns", "a"⟩, ⟨"ping", "b"⟩]
        [initProbe "dns" ⟨"a", 3, 1, 0⟩] =
      Except.ok ⟨[initProbe "dns" ⟨"a", 3, 1, 0⟩]⟩ := by
  rw [(C10_create_composite_resolution
        [⟨"dns", "a"⟩, ⟨"ping", "b"⟩]
        [initProbe "dns" ⟨"a", 3, 1, 0⟩]).1 (by decide)]
  rfl

lemma probeRecord_state (p : ProbeBase) (cur : ProbeResult) :
    (p.probeRecord cur).state.total_count = p.state.total_count + 1 ∧
    (p.probeRecord cur).state.total_lost_count =
      p.state.total_lost_count + (if cur.rtt = none then 1 else 0) ∧
    (p.probeRecord cur).state.bytes_sent =
      p.state.bytes_sent + cur.bytes_sent ∧
    (p.probeRecord cur).state.bytes_received =
      p.state.bytes_received + cur.bytes_received ∧
    (p.probeRecord cur).state.current = some cur := by
  unfold ProbeBase.probeRecord ProbeBase.add_hist
  cases hr : cur.rtt <;> simp [hr]

/-- Claim C9: every completed cycle increments `total_count` by exactly
one, increments `total_lost_count` by one exactly when the recorded
result is a lost sample, never decreases any of the four counters, and
preserves the invariant `total_lost_count ≤ total_count`. -/
theorem C9_counters_monotone_invariant (p : ProbeBase)
    (oc : ProbeActionOutcome) (q : ProbeBase)
    (h : p.probe oc = Except.ok q)
    (hinv : p.state.total_lost_count ≤ p.state.total_count) :
    q.state.total_count = p.state.total_count + 1 ∧
    (∀ cur, q.state.current = some cur →
      q.state.total_lost_count =
        p.state.total_lost_count + (if cur.rtt = none then 1 else 0)) ∧
    p.state.bytes_sent ≤ q.state.bytes_sent ∧
    p.state.bytes_received ≤ q.state.bytes_received ∧
    p.state.total_lost_count ≤ q.state.total_lost_count ∧
    q.state.total_lost_count ≤ q.state.total_count := by
  have core : ∀ cur0, q = p.probeRecord cur0 →
      q.state.total_count = p.state.total_count + 1 ∧
      (∀ cur, q.state.current = some cur →
        q.state.total_lost_count =
          p.state.total_lost_count + (if cur.rtt = none then 1 else 0)) ∧
      p.state.bytes_sent ≤ q.state.bytes_sent ∧
      p.state.bytes_received ≤ q.state.bytes_received ∧
      p.state.total_lost_count ≤ q.state.total_lost_count ∧
      q.state.total_lost_count ≤ q.state.total_count := by
    rintro cur0 rfl
    obtain ⟨h1, h2, h3, h4, h5⟩ := probeRecord_state p cur0
    refine ⟨h1, ?_, ?_, ?_, ?_, ?_⟩
    · intro cur hcur
      rw [h5] at hcur
      cases hcur
      exact h2
    · omega
    · omega
    · rw [h2]; omega
    · rw [h1, h2]; split <;> omega
  cases oc with
  | cancelled => simp [ProbeBase.probe] at h
  | error =>
      have hq : q = p.probeRecord ⟨none, 0, 0⟩ := by
        simpa [ProbeBase.probe] using h.symm
      exact core _ hq
  | ok r =>
      have hq : q = p.probeRecord r := by
        simpa [ProbeBase.probe] using h.symm
      exact core _ hq

/-- Witness for C9 at a concrete successful cycle. -/
theorem C9_counters_witness :
    (initProbe "dns" ⟨"a", 3, 1, 0⟩).probe
        (ProbeActionOutcome.ok ⟨some 5, 10, 20⟩) =
      Except.ok ((initProbe "dns" ⟨"a", 3, 1, 0⟩).probeRecord
        ⟨some 5, 10, 20⟩) ∧
    ((initProbe "dns" ⟨"a", 3, 1, 0⟩).probeRecord
        ⟨some 5, 10, 20⟩).state.total_count =
      (initProbe "dns" ⟨"a", 3, 1, 0⟩).state.total_count + 1 ∧
    ((initProbe "dns" ⟨"a", 3, 1, 0⟩).probeRecord
        ⟨some 5, 10, 20⟩).state.total_lost_count ≤
      ((initProbe "dns" ⟨"a", 3, 1, 0⟩).probeRecord
        ⟨some 5, 10, 20⟩).state.total_count := by
  have h := C9_counters_monotone_invariant
    (initProbe "dns" ⟨"a", 3, 1, 0⟩)
    (ProbeActionOutcome.ok ⟨some 5, 10, 20⟩)
    ((initProbe "dns" ⟨"a", 3, 1, 0⟩).probeRecord ⟨some 5, 10, 20⟩)
    rfl (by decide)
  exact ⟨rfl, h.1, h.2.2.2.2.2⟩

/-- Counterexample for C8: a dns driver timeout with a 40-byte query is
recorded as the current result `(None, 40, 0)` — bytes sent is 40, not
0 — so the claimed lost Measurement `{null, 0, 0}` is wrong for the
recoverable timeout/unreachable path. -/
theorem C8_lost_shape_counterexample :
    dns_probe_action 40 none = ⟨none, 40, 0⟩ ∧
    (initProbe "dns" ⟨"a", 3, 1, 0⟩).probe
        (ProbeActionOutcome.ok (dns_probe_action 40 none)) =
      Except.ok
        ((initProbe "dns" ⟨"a", 3, 1, 0⟩).probeRecord ⟨none, 40, 0⟩) ∧
    ((initProbe "dns" ⟨"a", 3, 1, 0⟩).probeRecord
        ⟨none, 40, 0⟩).state.current = some ⟨none, 40, 0⟩ ∧
    ((initProbe "dns" ⟨"a", 3, 1, 0⟩).probeRecord
        ⟨none, 40, 0⟩).state.bytes_sent = 40 ∧
    (⟨none, 40, 0⟩ : ProbeResult) ≠ ⟨none, 0, 0⟩ := by
  refine ⟨rfl, rfl, rfl, rfl, ?_⟩
  decide

/-- Claim C8 (amended): a driver-level timeout or unreachable outcome is
recorded as the lost Measurement `(None, attempted_bytes, 0)` — the dns
driver reports the query size as bytes sent, the ping driver reports
`payload_size + 8` — while a non-cancellation exception from the probe
action is recorded as `(None, 0, 0)`; in every such case the cycle
stores the lost result as current, increments both `total_count` and
`total_lost_count` by one, and completes without escaping the loop. -/
theorem C8_lost_cycle_recording (p : ProbeBase) (b payload : ℕ)
    (pr : PingResult) (r : ProbeResult)
    (hping : pr.packet_loss = true ∨ pr.rtts = [])
    (hr : r.rtt = none) :
    dns_probe_action b none = ⟨none, b, 0⟩ ∧
    ping_probe_action payload pr = ⟨none, payload + 8, 0⟩ ∧
    p.probe (ProbeActionOutcome.ok r) = Except.ok (p.probeRecord r) ∧
    p.probe ProbeActionOutcome.error =
      Except.ok (p.probeRecord ⟨none, 0, 0⟩) ∧
    (p.probeRecord r).state.current = some r ∧
    (p.probeRecord r).state.total_count = p.state.total_count + 1 ∧
    (p.probeRecord r).state.total_lost_count =
      p.state.total_lost_count + 1 ∧
    (p.probeRecord ⟨none, 0, 0⟩).state.current =
      some (⟨none, 0, 0⟩ : ProbeResult) ∧
    (p.probeRecord ⟨none, 0, 0⟩).state.total_count =
      p.state.total_count + 1 ∧
    (p.probeRecord ⟨none, 0, 0⟩).state.total_lost_count =
      p.state.total_lost_count + 1 := by
  obtain ⟨e1, e2, e3, e4, e5⟩ := probeRecord_state p r
  obtain ⟨f1, f2, f3, f4, f5⟩ :=
    probeRecord_state p (⟨none, 0, 0⟩ : ProbeResult)
  refine ⟨rfl, ?_, rfl, rfl, e5, e1, ?_, f5, f1, ?_⟩
  · rcases hping with hl | he
    · simp [ping_probe_action, hl]
    · cases hpl : pr.packet_loss <;> simp [ping_probe_action, hpl, he]
  · rw [e2, hr]; simp
  · rw [f2]; simp
/-- Witness for C8 (amended) at concrete lost cycles. -/
theorem C8_lost_cycle_witness :
    dns_probe_action 40 none = ⟨none, 40, 0⟩ ∧
    ping_probe_action 56 ⟨true, []⟩ = ⟨none, 64, 0⟩ ∧
    ((initProbe "ping" ⟨"a", 3, 1, 0⟩).probeRecord
        ⟨none, 64, 0⟩).state.total_lost_count =
      (initProbe "ping" ⟨"a", 3, 1, 0⟩).state.total_lost_count + 1 := by
  have h := C8_lost_cycle_recording (initProbe "ping" ⟨"a", 3, 1, 0⟩)
    40 56 ⟨true, []⟩ ⟨none, 64, 0⟩ (Or.inl rfl) rfl
  exact ⟨h.1, h.2.1, h.2.2.2.2.2.2.1⟩

/-- The publish condition of publish.py lines 279-282: the current
Measurement exists and its rtt is non-null. -/
def current_rtt_present (p : ProbeBase) : Bool :=
  match p.state.current with
  | some cur => cur.rtt.isSome
  | none => false

lemma current_rtt_present_iff (p : ProbeBase) :
    current_rtt_present p = true ↔
      ∃ cur r, p.state.current = some cur ∧ cur.rtt = some r := by
  unfold current_rtt_present
  cases hc : p.state.current with
  | none => simp
  | some cur =>
      cases hr : cur.rtt with
      | none => simp [hr]
      | some r => simp [hr]

/-- The head segment of one publish cycle (publish.py lines 279-296): the
rtt and connectivity tasks, depending on the current result. -/
def send_state_head (p : ProbeBase) : List (SensorCode × HassValue) :=
  match p.state.current with
  | some cur =>
      match cur.rtt with
      | some r =>
          [(SensorCode.rtt,
              to_hass_numeric p.probe_config.publish_precision (some r)),
           (SensorCode.connectivity, HassValue.str "ON")]
      | none => [(SensorCode.connectivity, HassValue.str "OFF")]
  | none => [(SensorCode.connectivity, HassValue.str "OFF")]

/-- The statistics segment of one publish cycle (publish.py lines
298-332), empty below the fill-factor gate. -/
def send_state_stats (p : ProbeBase) : List (SensorCode × HassValue) :=
  if 40 ≤ p.history_fill_factor then
    [(SensorCode.rtt_average,
        to_hass_numeric p.probe_config.publish_precision p.get_average),
     (SensorCode.average_loss,
        to_hass_numeric p.probe_config.publish_precision p.get_loss_percent),
     (SensorCode.jitter,
        to_hass_numeric p.probe_config.publish_precision p.get_jitter),
     (SensorCode.jitter_grade,
        match p.get_jitter, p.get_average with
        | some j, some a =>
            to_hass_numeric p.probe_config.publish_precision
              (some (100 * j / a))
        | _, _ => HassValue.str "unavailable")]
  else []

lemma send_state_decompose (p : ProbeBase) :
    send_state p =
      send_state_head p ++ send_state_stats p ++
        [(SensorCode.bytes_sent, HassValue.num (p.state.bytes_sent : ℚ)),
         (SensorCode.bytes_received,
            HassValue.num (p.state.bytes_received : ℚ))] := by
  rfl

lemma send_state_head_cases (p : ProbeBase) :
    send_state_head p =
      if current_rtt_present p then
        [(SensorCode.rtt,
            to_hass_numeric p.probe_config.publish_precision
              (p.state.current.bind ProbeResult.rtt)),
         (SensorCode.connectivity, HassValue.str "ON")]
      else [(SensorCode.connectivity, HassValue.str "OFF")] := by
  unfold send_state_head current_rtt_present
  cases hc : p.state.current with
  | none => simp
  | some cur =>
      cases hr : cur.rtt with
      | none => simp [hr]
      | some r => simp [hr]

lemma send_state_stats_fst (p : ProbeBase) :
    (send_state_stats p).map Prod.fst =
      if 40 ≤ p.history_fill_factor then
        [SensorCode.rtt_average, SensorCode.average_loss,
         SensorCode.jitter, SensorCode.jitter_grade]
      else [] := by
  unfold send_state_stats
  by_cases hf : 40 ≤ p.history_fill_factor <;> simp [hf]

lemma connectivity_not_in_stats (p : ProbeBase) (v : HassValue) :
    (SensorCode.connectivity, v) ∉ send_state_stats p := by
  unfold send_state_stats
  split
  · simp
  · simp

lemma mem_send_state_connectivity (p : ProbeBase) (v : HassValue) :
    ((SensorCode.connectivity, v) ∈ send_state p ↔
      v = (if current_rtt_present p then HassValue.str "ON"
           else HassValue.str "OFF")) := by
  rw [send_state_decompose, send_state_head_cases]
  cases h : current_rtt_present p
  · simp [connectivity_not_in_stats p v]
  · simp [connectivity_not_in_stats p v]

lemma mem_send_state_rtt (p : ProbeBase) :
    (SensorCode.rtt ∈ (send_state p).map Prod.fst ↔
      current_rtt_present p = true) := by
  rw [send_state_decompose, send_state_head_cases]
  cases h : current_rtt_present p
  · simp only [Bool.false_eq_true, if_false, List.map_append, List.mem_append,
      send_state_stats_fst]
    constructor
    · rintro ((h1 | h1) | h1)
      · simp at h1
      · revert h1; split <;> simp
      · simp at h1
    · intro h1; cases h1
  · simp

/-- Counterexample for C3: on a cycle whose current Measurement is the
lost sample `(None, 5, 0)`, the connectivity channel publishes `OFF` but
the round-trip-time channel is not published at all, refuting that both
channels publish every cycle. -/
theorem C3_rtt_skipped_counterexample :
    (⟨"dns", ⟨"a", 3, 1, 0⟩, [none],
        ⟨1, 1, 5, 0, some ⟨none, 5, 0⟩⟩⟩ : ProbeBase).state.current =
      some ⟨none, 5, 0⟩ ∧
    (SensorCode.connectivity, HassValue.str "OFF") ∈
      send_state
        (⟨"dns", ⟨"a", 3, 1, 0⟩, [none],
            ⟨1, 1, 5, 0, some ⟨none, 5, 0⟩⟩⟩ : ProbeBase) ∧
    SensorCode.rtt ∉
      (send_state
        (⟨"dns", ⟨"a", 3, 1, 0⟩, [none],
            ⟨1, 1, 5, 0, some ⟨none, 5, 0⟩⟩⟩ : ProbeBase)).map
        Prod.fst := by
  refine ⟨rfl, ?_, ?_⟩
  · rw [mem_send_state_connectivity]
    rfl
  · rw [mem_send_state_rtt]
    decide

/-- Claim C3 (amended): the connectivity channel is published on every
cycle — `ON` exactly when the current Measurement exists and its
round-trip-time is non-null, `OFF` otherwise — while the round-trip-time
channel is published exactly on the `ON` cycles and skipped on lost
ones. -/
theorem C3_gating_rtt_connectivity (p : ProbeBase) :
    ((SensorCode.connectivity, HassValue.str "ON") ∈ send_state p ∨
      (SensorCode.connectivity, HassValue.str "OFF") ∈ send_state p) ∧
    ((SensorCode.connectivity, HassValue.str "ON") ∈ send_state p ↔
      ∃ cur r, p.state.current = some cur ∧ cur.rtt = some r) ∧
    ((SensorCode.connectivity, HassValue.str "OFF") ∈ send_state p ↔
      ¬ ∃ cur r, p.state.current = some cur ∧ cur.rtt = some r) ∧
    (SensorCode.rtt ∈ (send_state p).map Prod.fst ↔
      ∃ cur r, p.state.current = some cur ∧ cur.rtt = some r) := by
  have hiff := current_rtt_present_iff p
  cases h : current_rtt_present p
  · rw [h] at hiff
    have hnp : ¬ ∃ cur r, p.state.current = some cur ∧ cur.rtt = some r := by
      rw [← hiff]; simp
    refine ⟨Or.inr ?_, ?_, ?_, ?_⟩
    · rw [mem_send_state_connectivity, h, if_neg (by decide)]
    · rw [mem_send_state_connectivity, h, if_neg (by decide)]
      exact ⟨fun hcontra => absurd hcontra (by decide),
        fun hex => absurd hex hnp⟩
    · rw [mem_send_state_connectivity, h, if_neg (by decide)]
      exact ⟨fun _ => hnp, fun _ => rfl⟩
    · rw [mem_send_state_rtt, h]
      exact ⟨fun hcontra => absurd hcontra (by decide),
        fun hex => absurd hex hnp⟩
  · rw [h] at hiff
    have hp2 : ∃ cur r, p.state.current = some cur ∧ cur.rtt = some r :=
      hiff.mp rfl
    refine ⟨Or.inl ?_, ?_, ?_, ?_⟩
    · rw [mem_send_state_connectivity, h, if_pos rfl]
    · rw [mem_send_state_connectivity, h, if_pos rfl]
      exact ⟨fun _ => hp2, fun _ => rfl⟩
    · rw [mem_send_state_connectivity, h, if_pos rfl]
      exact ⟨fun hcontra => absurd hcontra (by decide),
        fun hex => absurd hp2 hex⟩
    · rw [mem_send_state_rtt, h]
      exact ⟨fun _ => hp2, fun _ => rfl⟩

lemma history_length (p : ProbeBase) : p.history.length = p.hist.length := by
  unfold ProbeBase.history
  split
  · rfl
  · simp only [List.length_append, List.length_drop, List.length_take]
    omega

lemma send_state_head_fst_mem (p : ProbeBase) (code : SensorCode) :
    (code ∈ (send_state_head p).map Prod.fst ↔
      (code = SensorCode.rtt ∧ current_rtt_present p = true) ∨
        code = SensorCode.connectivity) := by
  rw [send_state_head_cases]
  cases h : current_rtt_present p <;> simp

lemma stat_mem_iff (p : ProbeBase) (code : SensorCode)
    (h1 : code ≠ SensorCode.rtt) (h2 : code ≠ SensorCode.connectivity)
    (h3 : code ≠ SensorCode.bytes_sent)
    (h4 : code ≠ SensorCode.bytes_received)
    (h5 : code ∈ ([SensorCode.rtt_average, SensorCode.average_loss,
        SensorCode.jitter, SensorCode.jitter_grade] : List SensorCode)) :
    (code ∈ (send_state p).map Prod.fst ↔ 40 ≤ p.history_fill_factor) := by
  rw [send_state_decompose]
  simp only [List.map_append, List.mem_append]
  constructor
  · rintro ((ha | hb) | hc)
    · rcases (send_state_head_fst_mem p code).mp ha with ⟨hr, _⟩ | hconn
      · exact absurd hr h1
      · exact absurd hconn h2
    · rw [send_state_stats_fst] at hb
      revert hb
      split
      · intro _; assumption
      · intro hb; exact absurd hb (List.not_mem_nil code)
    · simp only [List.map_cons, List.map_nil, List.mem_cons,
        List.not_mem_nil, or_false] at hc
      rcases hc with rfl | rfl
      · exact absurd rfl h3
      · exact absurd rfl h4
  · intro hf
    refine Or.inl (Or.inr ?_)
    rw [send_state_stats_fst, if_pos hf]
    exact h5

/-- Claim C4: the history fill factor equals
`100 * logical_history_length / capacity`, and the average, loss,
jitter and jitter-grade channels are published in a cycle exactly when
that fill factor is at least 40. -/
theorem C4_fill_factor_gate (p : ProbeBase)
    (hc : 1 ≤ p.probe_config.history_len) :
    p.history_fill_factor =
      100 * (p.history.length : ℚ) / (p.probe_config.history_len : ℚ) ∧
    ∀ code ∈ ([SensorCode.rtt_average, SensorCode.average_loss,
        SensorCode.jitter, SensorCode.jitter_grade] : List SensorCode),
      (code ∈ (send_state p).map Prod.fst ↔ 40 ≤ p.history_fill_factor) := by
  refine ⟨?_, ?_⟩
  · rw [ProbeBase.history_fill_factor, history_length]
  · intro code hcode
    simp only [List.mem_cons, List.not_mem_nil, or_false] at hcode
    rcases hcode with rfl | rfl | rfl | rfl <;>
      exact stat_mem_iff p _ (by decide) (by decide) (by decide) (by decide)
        (by decide)

/-- Witness for C4 with the example of the spec: capacity 100; with 30
recorded samples none of the four statistics channels is published, with
40 recorded samples all four are. -/
theorem C4_fill_factor_gate_witness :
    SensorCode.rtt_average ∉
      (send_state (⟨"dns", ⟨"a", 100, 1, 0⟩, List.replicate 30 (some 10),
          ⟨30, 0, 0, 0, some ⟨some 10, 1, 1⟩⟩⟩ : ProbeBase)).map Prod.fst ∧
    SensorCode.jitter ∉
      (send_state (⟨"dns", ⟨"a", 100, 1, 0⟩, List.replicate 30 (some 10),
          ⟨30, 0, 0, 0, some ⟨some 10, 1, 1⟩⟩⟩ : ProbeBase)).map Prod.fst ∧
    SensorCode.rtt_average ∈
      (send_state (⟨"dns", ⟨"a", 100, 1, 0⟩, List.replicate 40 (some 10),
          ⟨40, 0, 0, 0, some ⟨some 10, 1, 1⟩⟩⟩ : ProbeBase)).map Prod.fst ∧
    SensorCode.average_loss ∈
      (send_state (⟨"dns", ⟨"a", 100, 1, 0⟩, List.replicate 40 (some 10),
          ⟨40, 0, 0, 0, some ⟨some 10, 1, 1⟩⟩⟩ : ProbeBase)).map Prod.fst ∧
    SensorCode.jitter ∈
      (send_state (⟨"dns", ⟨"a", 100, 1, 0⟩, List.replicate 40 (some 10),
          ⟨40, 0, 0, 0, some ⟨some 10, 1, 1⟩⟩⟩ : ProbeBase)).map Prod.fst ∧
    SensorCode.jitter_grade ∈
      (send_state (⟨"dns", ⟨"a", 100, 1, 0⟩, List.replicate 40 (some 10),
          ⟨40, 0, 0, 0, some ⟨some 10, 1, 1⟩⟩⟩ : ProbeBase)).map Prod.fst := by
  have h30 := (C4_fill_factor_gate
    (⟨"dns", ⟨"a", 100, 1, 0⟩, List.replicate 30 (some 10),
        ⟨30, 0, 0, 0, some ⟨some 10, 1, 1⟩⟩⟩ : ProbeBase) (by decide)).2
  have h40 := (C4_fill_factor_gate
    (⟨"dns", ⟨"a", 100, 1, 0⟩, List.replicate 40 (some 10),
        ⟨40, 0, 0, 0, some ⟨some 10, 1, 1⟩⟩⟩ : ProbeBase) (by decide)).2
  have hf30 : ¬ (40 : ℚ) ≤
      (⟨"dns", ⟨"a", 100, 1, 0⟩, List.replicate 30 (some 10),
          ⟨30, 0, 0, 0, some ⟨some 10, 1, 1⟩⟩⟩ : ProbeBase).history_fill_factor := by
    norm_num [ProbeBase.history_fill_factor]
  have hf40 : (40 : ℚ) ≤
      (⟨"dns", ⟨"a", 100, 1, 0⟩, List.replicate 40 (some 10),
          ⟨40, 0, 0, 0, some ⟨some 10, 1, 1⟩⟩⟩ : ProbeBase).history_fill_factor := by
    norm_num [ProbeBase.history_fill_factor]
  refine ⟨fun hmem => hf30 ((h30 _ (by decide)).mp hmem),
    fun hmem => hf30 ((h30 _ (by decide)).mp hmem),
    (h40 _ (by decide)).mpr hf40,
    (h40 _ (by decide)).mpr hf40,
    (h40 _ (by decide)).mpr hf40,
    (h40 _ (by decide)).mpr hf40⟩

/-- The body of `get_average` as a function of an arbitrary buffer
contents, used to state order-independence of the average. -/
def averageOf (l : List (Option ℚ)) : Option ℚ :=
  let values := l.filterMap id
  if values.isEmpty then none
  else some (values.sum / (values.length : ℚ))

lemma get_average_eq_averageOf (p : ProbeBase) :
    p.get_average = averageOf p.hist := rfl

lemma averageOf_perm {l1 l2 : List (Option ℚ)} (h : l1.Perm l2) :
    averageOf l1 = averageOf l2 := by
  simp only [averageOf]
  have hfm : (l1.filterMap id).Perm (l2.filterMap id) := h.filterMap id
  have hemp : (l1.filterMap id).isEmpty = (l2.filterMap id).isEmpty := by
    by_cases h1 : l1.filterMap id = []
    · rw [h1] at hfm
      rw [h1, hfm.nil_eq]
    · have h2 : l2.filterMap id ≠ [] := by
        intro hh
        rw [hh] at hfm
        exact h1 (List.Perm.eq_nil hfm)
      cases hl1 : l1.filterMap id with
      | nil => exact absurd hl1 h1
      | cons a t =>
          cases hl2 : l2.filterMap id with
          | nil => exact absurd hl2 h2
          | cons b s => rfl
  rw [hemp, hfm.length_eq, hfm.sum_eq]

lemma history_perm (p : ProbeBase) : p.history.Perm p.hist := by
  unfold ProbeBase.history
  split
  · exact List.Perm.refl _
  · exact (List.perm_append_comm).trans
      (by rw [List.take_append_drop])

/-- Claim C5: `get_average` is `None` exactly when every history entry
is null (in particular on an empty history); otherwise it is the mean of
the non-null entries; the value is invariant under any permutation of
the buffer, so the physical (rotated) buffer and the chronological view
give the same average. -/
theorem C5_average_permutation_invariant (p : ProbeBase) :
    (p.get_average = none ↔ ∀ x ∈ p.hist, x = none) ∧
    (∀ l, l.Perm p.hist → averageOf l = p.get_average) ∧
    averageOf p.history = p.get_average := by
  refine ⟨?_, ?_, ?_⟩
  · rw [get_average_eq_averageOf]
    simp only [averageOf, List.isEmpty_iff]
    by_cases hv : p.hist.filterMap id = []
    · rw [if_pos hv]
      constructor
      · intro _ x hx
        simpa using List.filterMap_eq_nil_iff.mp hv x hx
      · intro _; rfl
    · rw [if_neg hv]
      constructor
      · intro hcontra; exact absurd hcontra (by simp)
      · intro hall
        exact absurd
          (List.filterMap_eq_nil_iff.mpr fun a ha => by simpa using hall a ha)
          hv
  · intro l hl
    rw [get_average_eq_averageOf]
    exact averageOf_perm hl
  · rw [get_average_eq_averageOf]
    exact averageOf_perm (history_perm p)

/-- Witness for C5: the average over a reordering of a concrete buffer
equals `get_average` of the probe. -/
theorem C5_average_witness :
    averageOf [some 3, none, some 1] =
      (⟨"dns", ⟨"a", 3, 1, 0⟩, [some 1, none, some 3],
          ⟨3, 1, 5, 5, some ⟨some 3, 1, 1⟩⟩⟩ : ProbeBase).get_average :=
  (C5_average_permutation_invariant
      (⟨"dns", ⟨"a", 3, 1, 0⟩, [some 1, none, some 3],
          ⟨3, 1, 5, 5, some ⟨some 3, 1, 1⟩⟩⟩ : ProbeBase)).2.1
    [some 3, none, some 1] (by decide)

/-- Differences between chronologically adjacent elements, written as a
direct recursion; this follows the wording of the spec (consecutive
pairs of the filtered sequence are diffed) and is compared with the
`zip`-based computation of the source. -/
def adjAbsDiffs : List ℚ → List ℚ
  | a :: b :: t => |b - a| :: adjAbsDiffs (b :: t)
  | _ => []

/-- Jitter as the spec words it: filter the nulls out, then take the
mean absolute difference of consecutive survivors; undefined when fewer
than 2 non-null entries remain. -/
def jitterSpec (l : List (Option ℚ)) : Option ℚ :=
  let h := l.filterMap id
  if h.length < 2 then none
  else some ((adjAbsDiffs h).sum / ((adjAbsDiffs h).length : ℚ))

lemma zipWith_adjAbsDiffs (l : List ℚ) :
    List.zipWith (fun i j => |j - i|) l.dropLast (l.drop 1) =
      adjAbsDiffs l := by
  induction l with
  | nil => rfl
  | cons a t ih =>
      cases t with
      | nil => rfl
      | cons b t2 =>
          have hdl : (a :: b :: t2).dropLast = a :: (b :: t2).dropLast := rfl
          have hd1 : (a :: b :: t2).drop 1 = b :: t2 := rfl
          rw [hdl, hd1]
          have hz : List.zipWith (fun i j => |j - i|)
              (a :: (b :: t2).dropLast) (b :: t2) =
              |b - a| :: List.zipWith (fun i j => |j - i|)
                (b :: t2).dropLast t2 := rfl
          rw [hz]
          have hd2 : (b :: t2).drop 1 = t2 := rfl
          rw [hd2] at ih
          rw [ih, adjAbsDiffs]

/-- Claim C2: `get_jitter` is `None` exactly when fewer than 2 non-null
entries remain after filtering the nulls out of the chronological
history; otherwise it equals the mean absolute difference of
chronologically consecutive non-null entries, with nulls removed before
pairing so that lost samples do not break adjacency. -/
theorem C2_jitter_adjacent_diffs (p : ProbeBase) :
    (p.get_jitter = none ↔ (p.history.filterMap id).length < 2) ∧
    p.get_jitter = jitterSpec p.history := by
  constructor
  · simp only [ProbeBase.get_jitter]
    by_cases hl : (p.history.filterMap id).length ≤ 1
    · rw [if_pos hl]
      exact iff_of_true rfl (by omega)
    · rw [if_neg hl]
      exact iff_of_false (by simp) (by omega)
  · simp only [ProbeBase.get_jitter, jitterSpec,
      zipWith_adjAbsDiffs (p.history.filterMap id)]
    by_cases hl : (p.history.filterMap id).length ≤ 1
    · rw [if_pos hl, if_pos (by omega)]
    · rw [if_neg hl, if_neg (by omega)]

/-- The effect of one `_add_hist` write on the chronological view:
append below capacity, otherwise evict the oldest entry and append. -/
def histStep (c : ℕ) (l : List (Option ℚ)) (v : Option ℚ) :
    List (Option ℚ) :=
  if l.length < c then l ++ [v] else l.drop 1 ++ [v]

/-- The structural invariant `_add_hist` maintains: the physical buffer
holds `min(total_count, capacity)` entries. -/
def HistInv (p : ProbeBase) : Prop :=
  p.hist.length = min p.state.total_count p.probe_config.history_len

lemma history_eq (p : ProbeBase) :
    p.history =
      if p.hist.length < p.probe_config.history_len then p.hist
      else
        p.hist.drop (p.state.total_count % p.probe_config.history_len) ++
          p.hist.take (p.state.total_count % p.probe_config.history_len) :=
  rfl

lemma add_hist_hist (p : ProbeBase) (v : Option ℚ) :
    (p.add_hist v).hist =
      if p.hist.length < p.probe_config.history_len then p.hist ++ [v]
      else p.hist.set (p.state.total_count % p.probe_config.history_len) v :=
  rfl

lemma add_hist_count (p : ProbeBase) (v : Option ℚ) :
    (p.add_hist v).state.total_count = p.state.total_count + 1 := rfl

lemma add_hist_config (p : ProbeBase) (v : Option ℚ) :
    (p.add_hist v).probe_config = p.probe_config := rfl

lemma add_hist_inv (p : ProbeBase) (v : Option ℚ) (hinv : HistInv p) :
    HistInv (p.add_hist v) := by
  unfold HistInv at hinv ⊢
  rw [add_hist_hist, add_hist_count, add_hist_config]
  by_cases h : p.hist.length < p.probe_config.history_len
  · rw [if_pos h]
    simp only [List.length_append, List.length_cons, List.length_nil]
    omega
  · rw [if_neg h, List.length_set]
    omega

lemma history_add_hist (p : ProbeBase) (v : Option ℚ)
    (hc : 1 ≤ p.probe_config.history_len) (hinv : HistInv p) :
    (p.add_hist v).history =
      histStep p.probe_config.history_len p.history v := by
  unfold HistInv at hinv
  by_cases hlen : p.hist.length < p.probe_config.history_len
  · have hp : p.history = p.hist := by rw [history_eq, if_pos hlen]
    have hstep : histStep p.probe_config.history_len p.history v =
        p.hist ++ [v] := by
      rw [histStep, hp, if_pos hlen]
    rw [hstep, history_eq]
    simp only [add_hist_hist, add_hist_count, add_hist_config]
    rw [if_pos hlen]
    by_cases h2 : (p.hist ++ [v]).length < p.probe_config.history_len
    · rw [if_pos h2]
    · rw [if_neg h2]
      have hmod : (p.state.total_count + 1) % p.probe_config.history_len
          = 0 := by
        have hfull : p.state.total_count + 1 = p.probe_config.history_len := by
          simp only [List.length_append, List.length_cons,
            List.length_nil] at h2
          omega
        rw [hfull, Nat.mod_self]
      rw [hmod]
      simp
  · have hLc : p.hist.length = p.probe_config.history_len := by omega
    have hnc : p.probe_config.history_len ≤ p.state.total_count := by omega
    have hposlt : p.state.total_count % p.probe_config.history_len <
        p.probe_config.history_len := Nat.mod_lt _ (by omega)
    have hp : p.history =
        p.hist.drop (p.state.total_count % p.probe_config.history_len) ++
          p.hist.take (p.state.total_count % p.probe_config.history_len) := by
      rw [history_eq, if_neg hlen]
    have hlenhist : p.history.length = p.probe_config.history_len := by
      rw [hp]
      simp only [List.length_append, List.length_drop, List.length_take]
      omega
    have hstep : histStep p.probe_config.history_len p.history v =
        (p.hist.drop (p.state.total_count % p.probe_config.history_len) ++
          p.hist.take
            (p.state.total_count % p.probe_config.history_len)).drop 1 ++
          [v] := by
      rw [histStep, if_neg (by rw [hlenhist]; omega), hp]
    have hd1 : (p.hist.drop
          (p.state.total_count % p.probe_config.history_len) ++
          p.hist.take
            (p.state.total_count % p.probe_config.history_len)).drop 1 =
        p.hist.drop (p.state.total_count % p.probe_config.history_len + 1) ++
          p.hist.take (p.state.total_count % p.probe_config.history_len) := by
      rw [List.drop_append_of_le_length
        (by rw [List.length_drop]; omega)]
      rw [List.drop_drop]
    rw [hstep, hd1, history_eq]
    simp only [add_hist_hist, add_hist_count, add_hist_config]
    rw [if_neg hlen]
    rw [if_neg (by rw [List.length_set]; omega)]
    have hmodstep : (p.state.total_count + 1) % p.probe_config.history_len =
        (p.state.total_count % p.probe_config.history_len + 1) %
          p.probe_config.history_len :=
      (Nat.mod_add_mod p.state.total_count p.probe_config.history_len 1).symm
    by_cases hpc : p.state.total_count % p.probe_config.history_len + 1 <
        p.probe_config.history_len
    · have hp2 : (p.state.total_count + 1) % p.probe_config.history_len =
          p.state.total_count % p.probe_config.history_len + 1 := by
        rw [hmodstep, Nat.mod_eq_of_lt hpc]
      rw [hp2]
      have hdrop : (p.hist.set
            (p.state.total_count % p.probe_config.history_len) v).drop
          (p.state.total_count % p.probe_config.history_len + 1) =
          p.hist.drop
            (p.state.total_count % p.probe_config.history_len + 1) := by
        rw [List.drop_set, if_pos (Nat.lt_succ_self _)]
      have htake : (p.hist.set
            (p.state.total_count % p.probe_config.history_len) v).take
          (p.state.total_count % p.probe_config.history_len + 1) =
          p.hist.take (p.state.total_count % p.probe_config.history_len) ++
            [v] := by
        rw [List.set_take]
        rw [List.set_eq_take_cons_drop v
          (by rw [List.length_take]; omega)]
        rw [List.take_take,
          List.drop_eq_nil_of_le (by rw [List.length_take]; omega),
          Nat.min_eq_left (Nat.le_succ _)]
      rw [hdrop, htake, List.append_assoc]
    · have hpc2 : p.state.total_count % p.probe_config.history_len + 1 =
          p.probe_config.history_len := by omega
      have hp2 : (p.state.total_count + 1) % p.probe_config.history_len
          = 0 := by
        rw [hmodstep, hpc2, Nat.mod_self]
      rw [hp2]
      simp only [List.drop_zero, List.take_zero, List.append_nil]
      have hdropnil : p.hist.drop
          (p.state.total_count % p.probe_config.history_len + 1) = [] :=
        List.drop_eq_nil_of_le (by omega)
      rw [hdropnil, List.nil_append]
      rw [List.set_eq_take_cons_drop v (by omega), hdropnil]

lemma foldl_histStep (c : ℕ) (hc : 1 ≤ c) (vs : List (Option ℚ)) :
    vs.foldl (histStep c) [] = vs.drop (vs.length - c) := by
  induction vs using List.reverseRecOn with
  | nil => simp
  | append_singleton l a ih =>
      rw [List.foldl_append]
      simp only [List.foldl_cons, List.foldl_nil]
      rw [ih]
      by_cases hn : l.length < c
      · have h0 : l.length - c = 0 := by omega
        have h1 : (l ++ [a]).length - c = 0 := by
          simp only [List.length_append, List.length_cons, List.length_nil]
          omega
        rw [h0, List.drop_zero, h1, List.drop_zero, histStep, if_pos hn]
      · have hdlen : (l.drop (l.length - c)).length = c := by
          rw [List.length_drop]; omega
        rw [histStep, if_neg (by rw [hdlen]; omega)]
        rw [List.drop_drop]
        have h2 : (l ++ [a]).length - c = l.length - c + 1 := by
          simp only [List.length_append, List.length_cons, List.length_nil]
          omega
        rw [h2, List.drop_append_of_le_length (by omega)]

lemma recordAll_history (vs : List (Option ℚ)) : ∀ p : ProbeBase,
    1 ≤ p.probe_config.history_len → HistInv p →
    HistInv (recordAll p vs) ∧
    (recordAll p vs).probe_config = p.probe_config ∧
    (recordAll p vs).history =
      vs.foldl (histStep p.probe_config.history_len) p.history := by
  induction vs with
  | nil => exact fun p _ hinv => ⟨hinv, rfl, rfl⟩
  | cons v vs ih =>
      intro p hc hinv
      have hstep := history_add_hist p v hc hinv
      have hinv2 := add_hist_inv p v hinv
      obtain ⟨ha, hb, hcEq⟩ := ih (p.add_hist v) hc hinv2
      have hunfold : recordAll p (v :: vs) = recordAll (p.add_hist v) vs := rfl
      refine ⟨by rw [hunfold]; exact ha, by rw [hunfold]; exact hb, ?_⟩
      rw [hunfold, hcEq, hstep, List.foldl_cons]
      rfl

/-- Claim C1: for any capacity at least 1 and any recorded sequence, the
logical history never exceeds the capacity, and once at least `capacity`
values have been recorded the history is exactly the last `capacity`
recorded values in chronological order, older values having been
evicted. -/
theorem C1_history_bounded_and_window (pt : String) (cfg : ProbeConfig)
    (hc : 1 ≤ cfg.history_len) (vs : List (Option ℚ)) :
    (recordAll (initProbe pt cfg) vs).history.length ≤ cfg.history_len ∧
    (cfg.history_len ≤ vs.length →
      (recordAll (initProbe pt cfg) vs).history =
        vs.drop (vs.length - cfg.history_len)) := by
  have hinv0 : HistInv (initProbe pt cfg) := by
    simp [HistInv, initProbe]
  obtain ⟨_, _, hhist⟩ := recordAll_history vs (initProbe pt cfg) hc hinv0
  have hhist0 : (initProbe pt cfg).history = [] := by
    rw [history_eq,
      if_pos (show (initProbe pt cfg).hist.length <
        (initProbe pt cfg).probe_config.history_len from hc)]
    rfl
  rw [hhist0] at hhist
  have hcfg : (initProbe pt cfg).probe_config.history_len =
      cfg.history_len := rfl
  rw [hcfg, foldl_histStep cfg.history_len hc vs] at hhist
  constructor
  · rw [hhist, List.length_drop]
    omega
  · intro _
    exact hhist

/-- Witness for C1 with the example of the spec: capacity 3, recordings
`[10, None, 20, 30]`, history `[None, 20, 30]` with the oldest value 10
evicted. -/
theorem C1_history_witness :
    (recordAll (initProbe "dns" ⟨"a", 3, 1, 0⟩)
        [some 10, none, some 20, some 30]).history =
      [none, some 20, some 30] := by
  rw [(C1_history_bounded_and_window "dns" ⟨"a", 3, 1, 0⟩ (by decide)
    [some 10, none, some 20, some 30]).2 (by decide)]
  rfl
